import Mathlib

/-!
# Verification of the project-tracker sync subsystem

Shallow embedding of the client dashboard code (`dashboard.js`) and of the
backend orchestrator contracts (dispatcher, job registry, token lifecycle
manager, sync runner, upsert repository).  The client functions
(`refreshData`, `pollRefreshStatus`, the project-card time display) are
translated directly from `src/dashboard.js`; the backend components ship in
this repository only as documentation, so they are modelled from the spec
(each such definition is marked `Modelled from the spec:`).

JavaScript conventions carried into the embedding:
* JS `x || y` treats `undefined`, `null`, `""` and `0` as falsy, so
  `status.error_message || 'Refresh job failed'` is modelled on
  `Option String` with the empty string also selecting the default.
* JS numbers are modelled as exact rationals (`ℚ`); `toFixed(1)` is modelled
  as round-half-up at one decimal digit.
-/

/-- The four Job states of the registry (`queued | running | completed |
failed`), as matched by the client in `pollRefreshStatus`. -/
inductive JobState
  | queued
  | running
  | completed
  | failed
deriving DecidableEq, Repr

/-- The JSON body returned by `GET /api/refresh/status/<job_id>`: a state plus
the optional `error_message` (populated only for failed jobs). -/
structure JobStatus where
  status : JobState
  error_message : Option String
deriving DecidableEq, Repr

/-- What one poll tick can observe: the `fetch` itself throwing, a non-OK
HTTP response (`!res.ok`), or a parsed status body. -/
inductive PollResult
  | fetchError (msg : String)
  | httpError (code : Nat)
  | ok (status : JobStatus)
deriving DecidableEq, Repr

/-- The settled value of the polling promise: `resolve(status)` or
`reject(new Error(message))` (observationally, an `Error`'s message). -/
inductive PollOutcome
  | resolved (status : JobStatus)
  | rejected (message : String)
deriving DecidableEq, Repr

/-- `status.error_message || 'Refresh job failed'` — JS `||` with `undefined`,
`null` and `""` all falsy. -/
def jsOrFailedMsg : Option String → String
  | none => "Refresh job failed"
  | some "" => "Refresh job failed"
  | some m => m

/-- Message of the error thrown on a non-OK status response:
`Failed to check status: ${res.status}`. -/
def statusText (code : Nat) : String :=
  "Failed to check status: " ++ toString code

/-- The body of one `setInterval` tick of `pollRefreshStatus`: `some o` when
the tick settles the promise (clearing the interval) with outcome `o`, `none`
when it falls through the `completed`/`failed` tests and polling continues. -/
def tickOutcome : PollResult → Option PollOutcome
  | .fetchError m => some (.rejected m)
  | .httpError c => some (.rejected (statusText c))
  | .ok s =>
      if s.status = .completed then some (.resolved s)
      else if s.status = .failed then
        some (.rejected (jsOrFailedMsg s.error_message))
      else none

/-- The polling loop of `pollRefreshStatus`, sequentialised: `resp i` is what
the `i`-th 5-second tick observes, `fuel` is the number of ticks left before
the 10-minute `setTimeout` fires `reject(new Error('Refresh timeout'))`. -/
def pollFrom (resp : Nat → PollResult) : Nat → Nat → PollOutcome
  | 0, _ => .rejected "Refresh timeout"
  | fuel + 1, i =>
      match tickOutcome (resp i) with
      | some o => o
      | none => pollFrom resp fuel (i + 1)

/-- `setInterval(..., 5000)` — the fixed 5-second poll interval. -/
def pollIntervalMs : Nat := 5000

/-- `setTimeout(..., 600000)` — the 10-minute overall timeout. -/
def pollTimeoutMs : Nat := 600000

/-- Number of poll ticks that fit before the overall timeout. -/
def maxPollTicks : Nat := pollTimeoutMs / pollIntervalMs

/-- `pollRefreshStatus(jobId)` from `dashboard.js`, as a function of the
stream of per-tick observations. -/
def pollRefreshStatus (resp : Nat → PollResult) : PollOutcome :=
  pollFrom resp maxPollTicks 0

/-- Number of status fetches issued by the loop of `pollFrom`: a tick that
settles the promise still issued its fetch; once settled or timed out no
further fetch happens. -/
def pollTicksFrom (resp : Nat → PollResult) : Nat → Nat → Nat
  | 0, _ => 0
  | fuel + 1, i =>
      match tickOutcome (resp i) with
      | some _ => 1
      | none => 1 + pollTicksFrom resp fuel (i + 1)

/-- Total number of status fetches issued by `pollRefreshStatus`. -/
def pollTicks (resp : Nat → PollResult) : Nat :=
  pollTicksFrom resp maxPollTicks 0

/-- The JSON body of `POST /api/refresh`; the client only inspects
`job_id`, the rest of the payload is returned to the caller unchanged. -/
structure RefreshResult where
  job_id : Option String
deriving DecidableEq, Repr

/-- What the refresh request itself can observe. -/
inductive RefreshResponse
  | fetchError (msg : String)
  | httpError (code : Nat)
  | ok (result : RefreshResult)
deriving DecidableEq, Repr

/-- The settled value of `refreshData()`: the polling outcome when the async
path was taken, the terminal result returned directly on the inline path, or
the rethrown error when the refresh request itself failed. -/
inductive RefreshOutcome
  | pollOutcome (o : PollOutcome)
  | direct (r : RefreshResult)
  | thrown (msg : String)
deriving DecidableEq, Repr

/-- JS truthiness of `result.job_id`: `undefined`, `null` and `""` are
falsy, every other string is truthy. -/
def jsTruthyStr : Option String → Bool
  | none => false
  | some s => s ≠ ""

/-- `refreshData()` from `dashboard.js`: POST `/api/refresh`; on a body with
a (truthy) `job_id` await `pollRefreshStatus(result.job_id)`, otherwise
return the body directly; errors are rethrown. -/
def refreshData (resp : RefreshResponse) (poll : Nat → PollResult) :
    RefreshOutcome :=
  match resp with
  | .fetchError m => .thrown m
  | .httpError c => .thrown ("Failed to refresh data: " ++ toString c)
  | .ok r =>
      if jsTruthyStr r.job_id then .pollOutcome (pollRefreshStatus poll)
      else .direct r

/-- Whether a `refreshData` run entered the polling loop. -/
def RefreshOutcome.isPolling : RefreshOutcome → Bool
  | .pollOutcome _ => true
  | _ => false

/-! ## Basic lemmas about the polling loop -/

/-- Ticks that settle nothing are skipped: after `j` clean ticks the loop is
at index `i + j` with `j` less fuel. -/
theorem pollFrom_skip (resp : Nat → PollResult) (j : Nat) :
    ∀ fuel i, j ≤ fuel → (∀ k, k < j → tickOutcome (resp (i + k)) = none) →
      pollFrom resp fuel i = pollFrom resp (fuel - j) (i + j) := by
  induction j with
  | zero => intro fuel i _ _; simp
  | succ j ih =>
      intro fuel i hj hclean
      obtain ⟨f, rfl⟩ : ∃ f, fuel = f + 1 :=
        ⟨fuel - 1, (Nat.succ_pred_eq_of_pos (Nat.lt_of_lt_of_le j.succ_pos hj)).symm⟩
      have h0 : tickOutcome (resp i) = none := by
        simpa using hclean 0 j.succ_pos
      have hstep : pollFrom resp (f + 1) i = pollFrom resp f (i + 1) := by
        simp [pollFrom, h0]
      rw [hstep, ih f (i + 1) (Nat.succ_le_succ_iff.mp hj)
        (fun k hk => by
          have := hclean (k + 1) (Nat.succ_lt_succ hk)
          simpa [Nat.add_assoc, Nat.add_comm 1 k] using this)]
      congr 1
      · omega
      · omega

/-- A tick that settles the promise yields its outcome. -/
theorem pollFrom_hit (resp : Nat → PollResult) (fuel i : Nat) (o : PollOutcome)
    (hf : 0 < fuel) (h : tickOutcome (resp i) = some o) :
    pollFrom resp fuel i = o := by
  obtain ⟨f, rfl⟩ : ∃ f, fuel = f + 1 :=
    ⟨fuel - 1, (Nat.succ_pred_eq_of_pos hf).symm⟩
  simp [pollFrom, h]

/-- Exhausted fuel means the 10-minute timeout rejection. -/
theorem pollFrom_timeout (resp : Nat → PollResult) (i : Nat) :
    pollFrom resp 0 i = .rejected "Refresh timeout" := rfl

/-- The first settling tick determines the outcome of `pollRefreshStatus`. -/
theorem pollRefreshStatus_first_hit (resp : Nat → PollResult) (i : Nat)
    (o : PollOutcome) (hi : i < maxPollTicks)
    (hclean : ∀ k, k < i → tickOutcome (resp k) = none)
    (h : tickOutcome (resp i) = some o) :
    pollRefreshStatus resp = o := by
  unfold pollRefreshStatus
  rw [pollFrom_skip resp i maxPollTicks 0 (Nat.le_of_lt hi)
    (fun k hk => by simpa using hclean k hk)]
  exact pollFrom_hit resp _ _ o (by omega) (by simpa using h)

/-- If no tick settles the promise within the budget, the outcome is the
timeout rejection. -/
theorem pollRefreshStatus_timeout (resp : Nat → PollResult)
    (hclean : ∀ k, k < maxPollTicks → tickOutcome (resp k) = none) :
    pollRefreshStatus resp = .rejected "Refresh timeout" := by
  unfold pollRefreshStatus
  rw [pollFrom_skip resp maxPollTicks maxPollTicks 0 le_rfl
    (fun k hk => by simpa using hclean k hk)]
  simp [pollFrom_timeout]

/-- The loop never issues more fetches than it has fuel. -/
theorem pollTicksFrom_le (resp : Nat → PollResult) :
    ∀ fuel i, pollTicksFrom resp fuel i ≤ fuel := by
  intro fuel
  induction fuel with
  | zero => intro i; simp [pollTicksFrom]
  | succ f ih =>
      intro i
      unfold pollTicksFrom
      match tickOutcome (resp i) with
      | some _ => simp
      | none => simpa [Nat.add_comm] using Nat.add_le_add_right (ih (i + 1)) 1

/-- Counting version of `pollFrom_skip`: clean ticks each cost one fetch. -/
theorem pollTicksFrom_skip (resp : Nat → PollResult) (j : Nat) :
    ∀ fuel i, j ≤ fuel → (∀ k, k < j → tickOutcome (resp (i + k)) = none) →
      pollTicksFrom resp fuel i = j + pollTicksFrom resp (fuel - j) (i + j) := by
  induction j with
  | zero => intro fuel i _ _; simp
  | succ j ih =>
      intro fuel i hj hclean
      obtain ⟨f, rfl⟩ : ∃ f, fuel = f + 1 :=
        ⟨fuel - 1, (Nat.succ_pred_eq_of_pos (Nat.lt_of_lt_of_le j.succ_pos hj)).symm⟩
      have h0 : tickOutcome (resp i) = none := by
        simpa using hclean 0 j.succ_pos
      have hstep : pollTicksFrom resp (f + 1) i = 1 + pollTicksFrom resp f (i + 1) := by
        simp [pollTicksFrom, h0]
      rw [hstep, ih f (i + 1) (Nat.succ_le_succ_iff.mp hj)
        (fun k hk => by
          have := hclean (k + 1) (Nat.succ_lt_succ hk)
          simpa [Nat.add_assoc, Nat.add_comm 1 k] using this)]
      have hfj : f - j = f + 1 - (j + 1) := by omega
      have hidx : i + 1 + j = i + (j + 1) := by omega
      rw [hfj, hidx]
      omega

/-- Counting version of `pollFrom_hit`: a settling tick is the last fetch. -/
theorem pollTicksFrom_hit (resp : Nat → PollResult) (fuel i : Nat)
    (o : PollOutcome) (hf : 0 < fuel) (h : tickOutcome (resp i) = some o) :
    pollTicksFrom resp fuel i = 1 := by
  obtain ⟨f, rfl⟩ : ∃ f, fuel = f + 1 :=
    ⟨fuel - 1, (Nat.succ_pred_eq_of_pos hf).symm⟩
  simp [pollTicksFrom, h]

/-- A settling tick at index `i` (after a clean prefix) means exactly `i + 1`
fetches were issued. -/
theorem pollTicks_first_hit (resp : Nat → PollResult) (i : Nat)
    (o : PollOutcome) (hi : i < maxPollTicks)
    (hclean : ∀ k, k < i → tickOutcome (resp k) = none)
    (h : tickOutcome (resp i) = some o) :
    pollTicks resp = i + 1 := by
  unfold pollTicks
  rw [pollTicksFrom_skip resp i maxPollTicks 0 (Nat.le_of_lt hi)
    (fun k hk => by simpa using hclean k hk)]
  rw [pollTicksFrom_hit resp _ _ o (by omega) (by simpa using h)]

/-! ## Claim theorems about the client polling loop -/

/-- C1 (counterexample): the claim says the poll-timeout outcome is
distinguishable from the 'failed' outcome; but a job failing with
`error_message = "Refresh timeout"` settles the promise with exactly the
same rejection as the 10-minute timeout, so the two runs are
indistinguishable to the caller. -/
theorem c1_timeout_indistinguishable_counterexample :
    pollRefreshStatus (fun _ => .ok ⟨.failed, some "Refresh timeout"⟩) =
      pollRefreshStatus (fun _ => .ok ⟨.queued, none⟩) ∧
    pollRefreshStatus (fun _ => .ok ⟨.queued, none⟩) =
      .rejected "Refresh timeout" := by
  constructor <;> decide

/-- C1 (amended): the Status Poller surfaces exactly three outcomes — a job
observed `completed` resolves with the status body; a job observed `failed`
rejects with its `error_message` (default `"Refresh job failed"` when absent
or empty); elapsing the timeout with no settling tick rejects with the fixed
message `"Refresh timeout"`, which is distinguishable from the failed
outcome except when the job's `error_message` is itself `"Refresh timeout"`. -/
theorem c1_status_poller_outcomes (resp : Nat → PollResult) :
    (∀ i s, i < maxPollTicks → (∀ k, k < i → tickOutcome (resp k) = none) →
      resp i = .ok s → s.status = .completed →
      pollRefreshStatus resp = .resolved s) ∧
    (∀ i s, i < maxPollTicks → (∀ k, k < i → tickOutcome (resp k) = none) →
      resp i = .ok s → s.status = .failed →
      pollRefreshStatus resp = .rejected (jsOrFailedMsg s.error_message)) ∧
    ((∀ k, k < maxPollTicks → tickOutcome (resp k) = none) →
      pollRefreshStatus resp = .rejected "Refresh timeout") ∧
    (∀ i s, i < maxPollTicks → (∀ k, k < i → tickOutcome (resp k) = none) →
      resp i = .ok s → s.status = .failed →
      jsOrFailedMsg s.error_message ≠ "Refresh timeout" →
      ∀ resp' : Nat → PollResult,
        (∀ k, k < maxPollTicks → tickOutcome (resp' k) = none) →
        pollRefreshStatus resp ≠ pollRefreshStatus resp') := by
  refine ⟨?_, ?_, ?_, ?_⟩
  · intro i s hi hclean hri hs
    exact pollRefreshStatus_first_hit resp i _ hi hclean
      (by simp [tickOutcome, hri, hs])
  · intro i s hi hclean hri hs
    exact pollRefreshStatus_first_hit resp i _ hi hclean
      (by simp [tickOutcome, hri, hs])
  · exact pollRefreshStatus_timeout resp
  · intro i s hi hclean hri hs hmsg resp' hclean'
    rw [pollRefreshStatus_first_hit resp i
        (.rejected (jsOrFailedMsg s.error_message)) hi hclean
        (by simp [tickOutcome, hri, hs]),
      pollRefreshStatus_timeout resp' hclean']
    exact fun hc => hmsg (PollOutcome.rejected.inj hc)

/-- C1 (witness). -/
theorem c1_status_poller_outcomes_witness :
    pollRefreshStatus (fun _ => .ok ⟨.completed, none⟩) =
      .resolved ⟨.completed, none⟩ :=
  (c1_status_poller_outcomes (fun _ => .ok ⟨.completed, none⟩)).1 0
    ⟨.completed, none⟩ (by decide) (by omega) rfl rfl

/-- C2: polling never continues indefinitely — the tick interval is the fixed
5000 ms, the overall timeout is 600000 ms, the number of fetches issued never
exceeds the `600000 / 5000 = 120` ticks that fit before the timeout clears
the interval, and the first tick observing a terminal state (`completed` or
`failed`) is the last fetch issued. -/
theorem c2_polling_stops (resp : Nat → PollResult) :
    pollIntervalMs = 5000 ∧ pollTimeoutMs = 600000 ∧
    maxPollTicks = pollTimeoutMs / pollIntervalMs ∧
    pollTicks resp ≤ maxPollTicks ∧
    (∀ i s, i < maxPollTicks → (∀ k, k < i → tickOutcome (resp k) = none) →
      resp i = .ok s → (s.status = .completed ∨ s.status = .failed) →
      pollTicks resp = i + 1) := by
  refine ⟨rfl, rfl, rfl, pollTicksFrom_le resp maxPollTicks 0, ?_⟩
  intro i s hi hclean hri hs
  rcases hs with hs | hs
  · exact pollTicks_first_hit resp i (.resolved s) hi hclean
      (by simp [tickOutcome, hri, hs])
  · exact pollTicks_first_hit resp i (.rejected (jsOrFailedMsg s.error_message))
      hi hclean (by simp [tickOutcome, hri, hs])

/-- C2 (witness). -/
theorem c2_polling_stops_witness :
    pollTicks (fun _ => .ok ⟨.failed, none⟩) = 1 :=
  (c2_polling_stops (fun _ => .ok ⟨.failed, none⟩)).2.2.2.2 0
    ⟨.failed, none⟩ (by decide) (by omega) rfl (Or.inr rfl)

/-- C3 (counterexample): the claim says polling is entered iff the refresh
response contains a `job_id`; a response whose `job_id` is the empty string
contains one, yet the client's truthiness test skips polling and returns the
body directly. -/
theorem c3_empty_jobid_counterexample :
    (RefreshResult.mk (some "")).job_id ≠ none ∧
    (refreshData (.ok ⟨some ""⟩) (fun _ => .ok ⟨.queued, none⟩)).isPolling
      = false := by
  constructor <;> decide

/-- C3 (amended): a trigger-sync request settles in one of two shapes — with
a non-empty `job_id` the client enters the polling loop and its outcome is
the polling outcome; with no `job_id` (absent or empty) the body is returned
directly as the terminal result, with no polling.  Polling is entered iff the
response carries a non-empty `job_id`. -/
theorem c3_refresh_two_shapes (r : RefreshResult) (poll : Nat → PollResult) :
    (∀ j, r.job_id = some j → j ≠ "" →
      refreshData (.ok r) poll = .pollOutcome (pollRefreshStatus poll)) ∧
    (r.job_id = none ∨ r.job_id = some "" →
      refreshData (.ok r) poll = .direct r) ∧
    ((refreshData (.ok r) poll).isPolling = true ↔
      ∃ j, r.job_id = some j ∧ j ≠ "") := by
  refine ⟨?_, ?_, ?_⟩
  · intro j hj hne
    simp [refreshData, jsTruthyStr, hj, hne]
  · rintro (hj | hj) <;> simp [refreshData, jsTruthyStr, hj]
  · constructor
    · intro hpoll
      rcases hr : r.job_id with _ | j
      · simp [refreshData, jsTruthyStr, hr, RefreshOutcome.isPolling] at hpoll
      · refine ⟨j, rfl, ?_⟩
        intro hje
        simp [refreshData, jsTruthyStr, hr, hje, RefreshOutcome.isPolling] at hpoll
    · rintro ⟨j, hj, hne⟩
      simp [refreshData, jsTruthyStr, hj, hne, RefreshOutcome.isPolling]

/-- C3 (witness). -/
theorem c3_refresh_two_shapes_witness :
    refreshData (.ok ⟨some "job-1"⟩) (fun _ => .ok ⟨.queued, none⟩) =
      .pollOutcome (pollRefreshStatus (fun _ => .ok ⟨.queued, none⟩)) :=
  (c3_refresh_two_shapes ⟨some "job-1"⟩ (fun _ => .ok ⟨.queued, none⟩)).1
    "job-1" rfl (by decide)

/-- C9: the first errored poll — a fetch failure or a non-OK HTTP status —
clears the interval and rejects the promise with that error; no further fetch
is issued, so a single transient error ends polling before the timeout. -/
theorem c9_first_error_stops_polling (resp : Nat → PollResult) (i : Nat)
    (hi : i < maxPollTicks)
    (hclean : ∀ k, k < i → tickOutcome (resp k) = none) :
    (∀ m, resp i = .fetchError m →
      pollRefreshStatus resp = .rejected m ∧ pollTicks resp = i + 1) ∧
    (∀ c, resp i = .httpError c →
      pollRefreshStatus resp = .rejected (statusText c) ∧
      pollTicks resp = i + 1) := by
  constructor
  · intro m hm
    exact ⟨pollRefreshStatus_first_hit resp i (.rejected m) hi hclean
        (by simp [tickOutcome, hm]),
      pollTicks_first_hit resp i (.rejected m) hi hclean
        (by simp [tickOutcome, hm])⟩
  · intro c hc
    exact ⟨pollRefreshStatus_first_hit resp i (.rejected (statusText c)) hi
        hclean (by simp [tickOutcome, hc]),
      pollTicks_first_hit resp i (.rejected (statusText c)) hi hclean
        (by simp [tickOutcome, hc])⟩

/-- C9 (witness). -/
theorem c9_first_error_stops_polling_witness :
    pollRefreshStatus (fun _ => .fetchError "ECONNRESET") =
      .rejected "ECONNRESET" ∧
    pollTicks (fun _ => .fetchError "ECONNRESET") = 1 :=
  (c9_first_error_stops_polling (fun _ => .fetchError "ECONNRESET") 0
    (by decide) (by omega)).1 "ECONNRESET" rfl

/-! ## Job Registry state machine (C4)

The backend lives in this repository only as `Project_Tracker_Backend`
documentation, so the Job Registry's `Transition` operation is modelled from
the spec. -/

/-- Modelled from the spec: the `InvalidTransition` error of §4.2 —
"Transition enforces the state machine: `queued → running → {completed,
failed}`; any other transition request fails with an `InvalidTransition`
error."  (The registry implementation itself is not under `src/`.) -/
inductive TransitionError
  | invalidTransition
deriving DecidableEq, Repr

/-- Modelled from the spec: a Job Registry row — the state plus the
`error_message` populated only in `failed` (§3). -/
structure RegJob where
  state : JobState
  error_message : Option String
deriving DecidableEq, Repr

/-- Modelled from the spec: a Job is "created in `queued`" (§3). -/
def newJob : RegJob := ⟨.queued, none⟩

/-- Modelled from the spec: the legal edges of the Job state machine
`queued → running → {completed, failed}` (§4.2). -/
def allowedTransition : JobState → JobState → Bool
  | .queued, .running => true
  | .running, .completed => true
  | .running, .failed => true
  | _, _ => false

/-- Modelled from the spec: `Transition(id, newState, fields)` of the Job
Registry (§4.2): a legal request moves the job and records the error message
on `failed`; any other request fails with `InvalidTransition` and the job is
unchanged. -/
def transition (j : RegJob) (s : JobState) (err : Option String) :
    Except TransitionError RegJob :=
  if allowedTransition j.state s then
    .ok { state := s,
          error_message := if s = .failed then err else j.error_message }
  else .error .invalidTransition

/-- Run a list of transition requests against a job, collecting the state
after each successful transition (the states an observer can see change). -/
def runReqs (j : RegJob) : List (JobState × Option String) →
    RegJob × List JobState
  | [] => (j, [])
  | req :: rest =>
      match transition j req.1 req.2 with
      | .ok j' =>
          let r := runReqs j' rest
          (r.1, j'.state :: r.2)
      | .error _ => runReqs j rest

/-- The sequence of states observed over a job's lifetime: `queued` at
creation, then each state reached by a successful transition. -/
def observedTrace (reqs : List (JobState × Option String)) : List JobState :=
  .queued :: (runReqs newJob reqs).2

/-- The traces the claim allows: a nonempty prefix of
`queued, running, (completed | failed)`. -/
def validTrace : List JobState → Bool
  | [.queued] => true
  | [.queued, .running] => true
  | [.queued, .running, .completed] => true
  | [.queued, .running, .failed] => true
  | _ => false

/-- The observation lists that can still follow from a job currently in a
given state: each observed state must be reached by a legal edge. -/
def contOk : JobState → List JobState → Bool
  | _, [] => true
  | .queued, .running :: t => contOk .running t
  | .running, .completed :: t => contOk .completed t
  | .running, .failed :: t => contOk .failed t
  | _, _ => false

/-- A rejected transition request leaves the run unchanged. -/
theorem runReqs_error (j : RegJob) (s : JobState) (e : Option String)
    (rest : List (JobState × Option String)) (er : TransitionError)
    (h : transition j s e = .error er) :
    runReqs j ((s, e) :: rest) = runReqs j rest := by
  simp [runReqs, h]

/-- An accepted transition request contributes exactly one observation, the
requested state. -/
theorem runReqs_ok (j : RegJob) (s : JobState) (e : Option String)
    (rest : List (JobState × Option String)) (j' : RegJob)
    (h : transition j s e = .ok j') :
    (runReqs j ((s, e) :: rest)).2 = j'.state :: (runReqs j' rest).2 := by
  simp [runReqs, h]

/-- A successful transition goes to the requested state, along a legal edge. -/
theorem transition_ok_state (j : RegJob) (s : JobState) (e : Option String)
    (j' : RegJob) (h : transition j s e = .ok j') :
    j'.state = s ∧ allowedTransition j.state s = true := by
  unfold transition at h
  by_cases ha : allowedTransition j.state s = true
  · rw [if_pos ha] at h
    exact ⟨by cases h; rfl, ha⟩
  · rw [if_neg ha] at h
    cases h

/-- Whatever requests arrive, the observations from a job follow legal edges
out of its current state. -/
theorem contOk_runReqs (reqs : List (JobState × Option String)) :
    ∀ j : RegJob, contOk j.state (runReqs j reqs).2 = true := by
  induction reqs with
  | nil => intro j; simp [runReqs, contOk]
  | cons req rest ih =>
      intro j
      rcases req with ⟨s, e⟩
      cases htr : transition j s e with
      | error er => rw [runReqs_error j s e rest er htr]; exact ih j
      | ok j' =>
          rw [runReqs_ok j s e rest j' htr]
          obtain ⟨hst, hedge⟩ := transition_ok_state j s e j' htr
          have htail := ih j'
          rw [hst] at htail
          cases hjs : j.state <;> cases hss : s <;>
            rw [hjs, hss] at hedge <;>
            first
              | exact absurd hedge (by decide)
              | (rw [hst, hss]; rw [hss] at htail
                 simpa [contOk] using htail)

/-- A legal-edge observation list out of `queued` is a prefix of
`queued, running, (completed | failed)`. -/
theorem contOk_queued_shape (t : List JobState)
    (h : contOk .queued t = true) : validTrace (.queued :: t) = true := by
  cases t with
  | nil => rfl
  | cons a t1 =>
      cases a with
      | running =>
          simp only [contOk] at h
          cases t1 with
          | nil => rfl
          | cons b t2 =>
              cases b with
              | completed =>
                  simp only [contOk] at h
                  cases t2 with
                  | nil => rfl
                  | cons c t3 => simp [contOk] at h
              | failed =>
                  simp only [contOk] at h
                  cases t2 with
                  | nil => rfl
                  | cons c t3 => simp [contOk] at h
              | queued => simp [contOk] at h
              | running => simp [contOk] at h
      | queued => simp [contOk] at h
      | completed => simp [contOk] at h
      | failed => simp [contOk] at h

/-- C4: every observable state sequence of a Job is a prefix of
`queued, running, (completed | failed)`; and a transition request outside
`queued → running → {completed, failed}` fails with `InvalidTransition`
while leaving the Job unchanged. -/
theorem c4_job_state_machine :
    (∀ reqs : List (JobState × Option String),
      validTrace (observedTrace reqs) = true) ∧
    (∀ (j : RegJob) (s : JobState) (e : Option String),
      ¬ ((j.state = .queued ∧ s = .running) ∨
         (j.state = .running ∧ (s = .completed ∨ s = .failed))) →
      transition j s e = .error .invalidTransition ∧
      ∀ rest, runReqs j ((s, e) :: rest) = runReqs j rest) := by
  constructor
  · intro reqs
    exact contOk_queued_shape _ (by simpa [newJob] using contOk_runReqs reqs newJob)
  · intro j s e hbad
    have hallow : allowedTransition j.state s = false := by
      cases htrue : allowedTransition j.state s
      · rfl
      · exfalso
        apply hbad
        cases hj : j.state <;> cases hs : s <;> rw [hj, hs] at htrue <;>
          first
            | exact absurd htrue (by decide)
            | simp [hj, hs]
    have herr : transition j s e = .error .invalidTransition := by
      simp [transition, hallow]
    exact ⟨herr, fun rest => runReqs_error j s e rest _ herr⟩

/-- C4 (witness). -/
theorem c4_job_state_machine_witness :
    validTrace (observedTrace [(.running, none), (.completed, none)]) = true ∧
    transition newJob .completed none = .error .invalidTransition :=
  ⟨c4_job_state_machine.1 [(.running, none), (.completed, none)],
   (c4_job_state_machine.2 newJob .completed none (by decide)).1⟩

/-! ## Upsert Repository (C5)

The Upsert Repository is part of the backend, which is not under `src/`;
it is modelled from the spec (§4.5). -/

/-- Modelled from the spec: the idempotence key
`(provider, entityType, external_id)` of the Upsert Repository (§4.5). -/
structure RecordKey where
  provider : String
  entityType : String
  external_id : String
deriving DecidableEq, Repr

/-- Modelled from the spec: an External Record — a stable key plus its mapped
fields (collapsed into one `content` value) (§3). -/
structure SyncRecord where
  key : RecordKey
  content : String
deriving DecidableEq, Repr

/-- Modelled from the spec: the stored rows, one per key. -/
abbrev UpsertStore := List (RecordKey × String)

/-- The keys of the stored rows. -/
def storeKeys (st : UpsertStore) : List RecordKey := st.map Prod.fst

/-- Modelled from the spec: upserting one record — a row with the same key is
overwritten with the record's fields, otherwise a new row is inserted
(§4.5). -/
def upsertOne (st : UpsertStore) (r : SyncRecord) : UpsertStore :=
  if st.any (fun p => p.1 = r.key) then
    st.map (fun p => if p.1 = r.key then (p.1, r.content) else p)
  else st ++ [(r.key, r.content)]

/-- Modelled from the spec: `Upsert(provider, entityType, records)` processes
the batch record by record (§4.5). -/
def upsert (st : UpsertStore) (records : List SyncRecord) : UpsertStore :=
  records.foldl upsertOne st

/-- A sequence of `Upsert` calls. -/
def upsertCalls (st : UpsertStore) (calls : List (List SyncRecord)) :
    UpsertStore :=
  calls.foldl upsert st

/-- Overwriting rewrites only row contents, never keys. -/
theorem storeKeys_overwrite (st : UpsertStore) (k : RecordKey) (c : String) :
    storeKeys (st.map (fun p => if p.1 = k then (p.1, c) else p)) =
      storeKeys st := by
  unfold storeKeys
  rw [List.map_map]
  apply List.map_congr_left
  intro p _
  by_cases hp : p.1 = k <;> simp [hp]

/-- Upserting a record whose key is stored leaves the key list unchanged. -/
theorem storeKeys_upsertOne_mem (st : UpsertStore) (r : SyncRecord)
    (h : r.key ∈ storeKeys st) :
    storeKeys (upsertOne st r) = storeKeys st := by
  have hany : st.any (fun p => p.1 = r.key) = true := by
    rcases List.mem_map.mp h with ⟨p, hp, hpk⟩
    exact List.any_eq_true.mpr ⟨p, hp, by simp [hpk]⟩
  rw [upsertOne, if_pos hany]
  exact storeKeys_overwrite st r.key r.content

/-- Upserting a record with a fresh key appends exactly one row. -/
theorem storeKeys_upsertOne_not_mem (st : UpsertStore) (r : SyncRecord)
    (h : r.key ∉ storeKeys st) :
    storeKeys (upsertOne st r) = storeKeys st ++ [r.key] := by
  have hany : st.any (fun p => p.1 = r.key) = false := by
    rw [List.any_eq_false]
    intro p hp
    simp only [decide_eq_true_eq]
    intro hpk
    exact h (List.mem_map.mpr ⟨p, hp, hpk⟩)
  rw [upsertOne, if_neg (by simp [hany])]
  simp [storeKeys]

/-- One upsert still keeps one row per key. -/
theorem storeKeys_upsertOne_nodup (st : UpsertStore) (r : SyncRecord)
    (h : (storeKeys st).Nodup) : (storeKeys (upsertOne st r)).Nodup := by
  by_cases hm : r.key ∈ storeKeys st
  · rw [storeKeys_upsertOne_mem st r hm]; exact h
  · rw [storeKeys_upsertOne_not_mem st r hm]
    simpa [List.nodup_append] using ⟨h, hm⟩

/-- The stored key set after one upsert is the old set plus the new key. -/
theorem storeKeys_upsertOne_toFinset (st : UpsertStore) (r : SyncRecord) :
    (storeKeys (upsertOne st r)).toFinset =
      insert r.key (storeKeys st).toFinset := by
  by_cases hm : r.key ∈ storeKeys st
  · rw [storeKeys_upsertOne_mem st r hm]
    exact (Finset.insert_eq_self.mpr (List.mem_toFinset.mpr hm)).symm
  · rw [storeKeys_upsertOne_not_mem st r hm]
    ext a
    simp [or_comm]

/-- A batch upsert keeps one row per key. -/
theorem storeKeys_upsert_nodup (records : List SyncRecord) :
    ∀ st : UpsertStore, (storeKeys st).Nodup →
      (storeKeys (upsert st records)).Nodup := by
  induction records with
  | nil => intro st h; exact h
  | cons r rest ih =>
      intro st h
      exact ih (upsertOne st r) (storeKeys_upsertOne_nodup st r h)

/-- The stored key set after a batch is the old set plus the batch's keys. -/
theorem storeKeys_upsert_toFinset (records : List SyncRecord) :
    ∀ st : UpsertStore,
      (storeKeys (upsert st records)).toFinset =
        (storeKeys st).toFinset ∪ (records.map SyncRecord.key).toFinset := by
  induction records with
  | nil => intro st; simp [upsert]
  | cons r rest ih =>
      intro st
      have : upsert st (r :: rest) = upsert (upsertOne st r) rest := rfl
      rw [this, ih (upsertOne st r), storeKeys_upsertOne_toFinset st r]
      ext a
      simp [or_comm, or_assoc, or_left_comm]

/-- The stored key set after a call sequence is the old set plus every key
seen in any call. -/
theorem storeKeys_upsertCalls_toFinset (calls : List (List SyncRecord)) :
    ∀ st : UpsertStore,
      (storeKeys (upsertCalls st calls)).toFinset =
        (storeKeys st).toFinset ∪ (calls.flatten.map SyncRecord.key).toFinset := by
  induction calls with
  | nil => intro st; simp [upsertCalls]
  | cons c rest ih =>
      intro st
      have : upsertCalls st (c :: rest) = upsertCalls (upsert st c) rest := rfl
      rw [this, ih (upsert st c), storeKeys_upsert_toFinset c st]
      ext a
      simp [or_assoc]

/-- A call sequence keeps one row per key. -/
theorem storeKeys_upsertCalls_nodup (calls : List (List SyncRecord)) :
    ∀ st : UpsertStore, (storeKeys st).Nodup →
      (storeKeys (upsertCalls st calls)).Nodup := by
  induction calls with
  | nil => intro st h; exact h
  | cons c rest ih =>
      intro st h
      exact ih (upsert st c) (storeKeys_upsert_nodup c st h)

/-- Rows with other keys are untouched by an overwrite. -/
theorem map_overwrite_not_mem (k : RecordKey) (c : String) :
    ∀ l : UpsertStore, k ∉ storeKeys l →
      l.map (fun p => if p.1 = k then (p.1, c) else p) = l := by
  intro l
  induction l with
  | nil => intro _; rfl
  | cons hd tl ih =>
      intro h
      have hhd : hd.1 ≠ k := fun hk => h (by simp [storeKeys, hk])
      have htl : k ∉ storeKeys tl := fun hk => h (by simp [storeKeys] at hk ⊢; tauto)
      simp only [List.map_cons, if_neg hhd, ih htl]

/-- Re-upserting a row that is already stored with identical content is a
no-op. -/
theorem upsertOne_noop (st : UpsertStore) (r : SyncRecord)
    (hnd : (storeKeys st).Nodup) (h : (r.key, r.content) ∈ st) :
    upsertOne st r = st := by
  have hany : st.any (fun p => p.1 = r.key) = true :=
    List.any_eq_true.mpr ⟨(r.key, r.content), h, by simp⟩
  rw [upsertOne, if_pos hany]
  clear hany
  induction st with
  | nil => cases h
  | cons hd tl ih =>
      have hndtl : (storeKeys tl).Nodup := (List.nodup_cons.mp hnd).2
      have hhdtl : hd.1 ∉ storeKeys tl := (List.nodup_cons.mp hnd).1
      rcases List.mem_cons.mp h with hhd | htl
      · subst hhd
        simp only [List.map_cons, if_pos rfl]
        rw [map_overwrite_not_mem r.key r.content tl hhdtl]
        simp
      · have hne : hd.1 ≠ r.key := by
          intro hk
          exact hhdtl (by
            rw [hk]
            exact List.mem_map.mpr ⟨(r.key, r.content), htl, rfl⟩)
        simp only [List.map_cons, if_neg hne]
        rw [ih hndtl htl]

/-- Overwriting puts the new contents in the store. -/
theorem upsertOne_mem_content (st : UpsertStore) (r : SyncRecord)
    (h : r.key ∈ storeKeys st) : (r.key, r.content) ∈ upsertOne st r := by
  rcases List.mem_map.mp h with ⟨p, hp, hpk⟩
  have hany : st.any (fun p => p.1 = r.key) = true :=
    List.any_eq_true.mpr ⟨p, hp, by simp [hpk]⟩
  rw [upsertOne, if_pos hany]
  exact List.mem_map.mpr ⟨p, hp, by simp [hpk]⟩

/-- C5: upsert is idempotent by key — starting from an empty store, any
sequence of `Upsert` calls leaves exactly one row per distinct
`(provider, entityType, external_id)` key seen across all calls;
re-upserting identical content is a no-op, and re-upserting changed content
overwrites the row without adding one. -/
theorem c5_upsert_idempotent :
    (∀ calls : List (List SyncRecord),
      (upsertCalls [] calls).length =
        (calls.flatten.map SyncRecord.key).toFinset.card) ∧
    (∀ (st : UpsertStore) (r : SyncRecord), (storeKeys st).Nodup →
      (r.key, r.content) ∈ st → upsertOne st r = st) ∧
    (∀ (st : UpsertStore) (r : SyncRecord), r.key ∈ storeKeys st →
      storeKeys (upsertOne st r) = storeKeys st ∧
      (r.key, r.content) ∈ upsertOne st r) := by
  refine ⟨?_, upsertOne_noop, fun st r h =>
    ⟨storeKeys_upsertOne_mem st r h, upsertOne_mem_content st r h⟩⟩
  intro calls
  have hnd : (storeKeys (upsertCalls [] calls)).Nodup :=
    storeKeys_upsertCalls_nodup calls [] (by simp [storeKeys])
  have hlen : (upsertCalls [] calls).length =
      (storeKeys (upsertCalls [] calls)).length := by
    simp [storeKeys]
  rw [hlen, ← List.toFinset_card_of_nodup hnd,
    storeKeys_upsertCalls_toFinset calls []]
  simp [storeKeys]

/-- C5 (witness). -/
theorem c5_upsert_idempotent_witness :
    (upsertCalls []
      [[⟨⟨"github", "project", "r1"⟩, "a"⟩],
       [⟨⟨"github", "project", "r1"⟩, "b"⟩,
        ⟨⟨"whoop", "sleep", "s1"⟩, "z"⟩]]).length =
      (((([[⟨⟨"github", "project", "r1"⟩, "a"⟩],
        [⟨⟨"github", "project", "r1"⟩, "b"⟩,
         ⟨⟨"whoop", "sleep", "s1"⟩, "z"⟩]] :
        List (List SyncRecord)).flatten.map SyncRecord.key)).toFinset).card ∧
    upsertOne [(⟨"github", "project", "r1"⟩, "a")]
      ⟨⟨"github", "project", "r1"⟩, "a"⟩ =
      [(⟨"github", "project", "r1"⟩, "a")] :=
  ⟨c5_upsert_idempotent.1 _,
   c5_upsert_idempotent.2.1 _ _ (by decide) (by decide)⟩

/-! ## Token Lifecycle Manager (C6)

The Token Lifecycle Manager is part of the backend, which is not under
`src/`; it is modelled from the spec (§4.3). -/

/-- Modelled from the spec: the Credential Record (§3) — the rotating token
triple (the static `client_id`/`client_secret` play no role in rotation). -/
structure Cred where
  access_token : String
  refresh_token : String
  expires_at : Nat
deriving DecidableEq, Repr

/-- One answer of the provider's token endpoint: a fresh token triple, or a
failure (network or invalid grant). -/
inductive TokenResp
  | ok (access refresh : String) (expires : Nat)
  | err
deriving DecidableEq, Repr

/-- Modelled from the spec: one refresh exchange (§4.3) — the current stored
`refresh_token` is sent; on success the Credential Record is atomically
replaced with the new `access_token` + `refresh_token` + `expires_at`; on
failure it is left untouched. -/
def stepCred (c : Cred) : TokenResp → Cred
  | .ok a r e => ⟨a, r, e⟩
  | .err => c

/-- The Credential Record after a sequence of exchanges. -/
def credAfter (c : Cred) (rs : List TokenResp) : Cred :=
  rs.foldl stepCred c

/-- The refresh tokens sent to the provider, one per exchange: each exchange
reads the stored record as it is at that moment. -/
def sentTokens (c : Cred) : List TokenResp → List String
  | [] => []
  | resp :: rest => c.refresh_token :: sentTokens (stepCred c resp) rest

/-- The refresh tokens granted by the provider in a response sequence. -/
def grants : List TokenResp → List String
  | [] => []
  | .ok _ r _ :: rest => r :: grants rest
  | .err :: rest => grants rest

/-- `grants` distributes over concatenation. -/
theorem grants_append (l1 l2 : List TokenResp) :
    grants (l1 ++ l2) = grants l1 ++ grants l2 := by
  induction l1 with
  | nil => rfl
  | cons resp rest ih => cases resp <;> simp [grants, ih]

/-- The stored refresh token is the initial one or one granted en route. -/
theorem credAfter_refresh_mem (rs : List TokenResp) :
    ∀ c : Cred, (credAfter c rs).refresh_token = c.refresh_token ∨
      (credAfter c rs).refresh_token ∈ grants rs := by
  induction rs with
  | nil => intro c; left; rfl
  | cons resp rest ih =>
      intro c
      have hstep : credAfter c (resp :: rest) = credAfter (stepCred c resp) rest :=
        rfl
      rw [hstep]
      rcases ih (stepCred c resp) with h | h
      · cases resp with
        | ok a r e => right; rw [h]; simp [stepCred, grants]
        | err => left; rw [h]; rfl
      · right
        cases resp <;> simp [grants] <;> tauto

/-- Every token ever sent is the initial one or one granted en route. -/
theorem sentTokens_mem (rs : List TokenResp) :
    ∀ (c : Cred) (t : String), t ∈ sentTokens c rs →
      t = c.refresh_token ∨ t ∈ grants rs := by
  induction rs with
  | nil => intro c t h; cases h
  | cons resp rest ih =>
      intro c t h
      rcases List.mem_cons.mp h with h0 | h1
      · left; exact h0
      · rcases ih (stepCred c resp) t h1 with h2 | h2
        · cases resp with
          | ok a r e => right; rw [h2]; simp [stepCred, grants]
          | err => left; rw [h2]; rfl
        · right
          cases resp <;> simp [grants] <;> tauto

/-- C6: single-use rotation — provided the provider issues pairwise-distinct
fresh refresh tokens (all different from the initial one), the refresh token
consumed by any successful rotation is never sent to the token endpoint
again: every later exchange uses the newest stored value, which postdates
the rotation. -/
theorem c6_refresh_token_single_use (c : Cred)
    (l1 l2 : List TokenResp) (a r : String) (e : Nat)
    (hfresh : (c.refresh_token :: grants (l1 ++ .ok a r e :: l2)).Nodup) :
    (credAfter c l1).refresh_token ∉
      sentTokens (stepCred (credAfter c l1) (.ok a r e)) l2 := by
  intro hmem
  have hg : grants (l1 ++ .ok a r e :: l2) = grants l1 ++ r :: grants l2 := by
    rw [grants_append]; rfl
  rw [hg] at hfresh
  have hnd := List.nodup_cons.mp hfresh
  have hold : (credAfter c l1).refresh_token = c.refresh_token ∨
      (credAfter c l1).refresh_token ∈ grants l1 := credAfter_refresh_mem l1 c
  have hsent : (credAfter c l1).refresh_token =
        (stepCred (credAfter c l1) (.ok a r e)).refresh_token ∨
      (credAfter c l1).refresh_token ∈ grants l2 :=
    sentTokens_mem l2 _ _ hmem
  have hstep : (stepCred (credAfter c l1) (.ok a r e)).refresh_token = r := rfl
  rcases hold with hold | hold
  · -- the consumed token is the initial token
    rcases hsent with hs | hs
    · rw [hstep] at hs
      rw [hold] at hs
      exact hnd.1 (by rw [← hs]; simp)
    · rw [hold] at hs
      exact hnd.1 (by simp [hs])
  · -- the consumed token was granted before the rotation
    have hdisj := List.disjoint_of_nodup_append hnd.2
    rcases hsent with hs | hs
    · rw [hstep] at hs
      exact hdisj hold (by rw [← hs]; simp)
    · exact hdisj hold (by simp [hs])

/-- C6 (witness). -/
theorem c6_refresh_token_single_use_witness :
    (credAfter ⟨"a0", "r0", 0⟩ []).refresh_token ∉
      sentTokens (stepCred (credAfter ⟨"a0", "r0", 0⟩ []) (.ok "a1" "r1" 1))
        [.ok "a2" "r2" 2, .err] :=
  c6_refresh_token_single_use ⟨"a0", "r0", 0⟩ [] [.ok "a2" "r2" 2, .err]
    "a1" "r1" 1 (by decide)

/-! ## Sync Runner and Sync Cursor (C7)

The Sync Runner is part of the backend, which is not under `src/`; it is
modelled from the spec (§4.4, §3 "Sync Cursor"). -/

/-- Modelled from the spec: one fetched batch — its records, the watermark of
its newest record, and whether its upsert commits (`ok = false` models a
batch failure / crash before the upsert commits). -/
structure SyncBatch where
  records : List SyncRecord
  watermark : Nat
  ok : Bool

/-- Modelled from the spec: the Runner's durable state — the Sync Cursor
watermark plus the upsert store. -/
structure RunnerState where
  cursor : Nat
  store : UpsertStore

/-- Modelled from the spec: the per-batch loop of the Sync Runner (§4.4) —
each batch is upserted and only then the cursor advances past it; a batch
failure stops the Runner, preserving the progress already committed. -/
def runBatches : RunnerState → List SyncBatch → RunnerState
  | st, [] => st
  | st, b :: rest =>
      if b.ok then
        runBatches ⟨max st.cursor b.watermark, upsert st.store b.records⟩ rest
      else st

/-- A failing head batch stops the Runner at the current state. -/
theorem runBatches_fail (st : RunnerState) (b : SyncBatch)
    (rest : List SyncBatch) (h : b.ok = false) :
    runBatches st (b :: rest) = st := by
  simp [runBatches, h]

/-- A committing head batch advances the state. -/
theorem runBatches_commit (st : RunnerState) (b : SyncBatch)
    (rest : List SyncBatch) (h : b.ok = true) :
    runBatches st (b :: rest) =
      runBatches ⟨max st.cursor b.watermark, upsert st.store b.records⟩ rest := by
  simp [runBatches, h]

/-- The cursor never decreases. -/
theorem runBatches_cursor_mono (bs : List SyncBatch) :
    ∀ st : RunnerState, st.cursor ≤ (runBatches st bs).cursor := by
  induction bs with
  | nil => intro st; exact le_refl _
  | cons b rest ih =>
      intro st
      cases hok : b.ok
      · rw [runBatches_fail st b rest hok]
      · rw [runBatches_commit st b rest hok]
        exact le_trans (le_max_left _ _)
          (ih ⟨max st.cursor b.watermark, upsert st.store b.records⟩)

/-- Stored keys are never dropped by later batches. -/
theorem runBatches_keys_mono (bs : List SyncBatch) :
    ∀ (st : RunnerState) (k : RecordKey), k ∈ storeKeys st.store →
      k ∈ storeKeys (runBatches st bs).store := by
  induction bs with
  | nil => intro st k h; exact h
  | cons b rest ih =>
      intro st k h
      cases hok : b.ok
      · rw [runBatches_fail st b rest hok]; exact h
      · rw [runBatches_commit st b rest hok]
        refine ih _ k ?_
        have := storeKeys_upsert_toFinset b.records st.store
        have hmem : k ∈ (storeKeys (upsert st.store b.records)).toFinset := by
          rw [this]
          exact Finset.mem_union_left _ (List.mem_toFinset.mpr h)
        exact List.mem_toFinset.mp hmem

/-- A run over committing batches is the composition of its pieces. -/
theorem runBatches_append_ok (pre : List SyncBatch) :
    ∀ (st : RunnerState) (post : List SyncBatch),
      (∀ b ∈ pre, b.ok = true) →
      runBatches st (pre ++ post) = runBatches (runBatches st pre) post := by
  induction pre with
  | nil => intro st post _; rfl
  | cons b rest ih =>
      intro st post hok
      have hb : b.ok = true := hok b (List.mem_cons_self b rest)
      rw [List.cons_append, runBatches_commit st b (rest ++ post) hb,
        runBatches_commit st b rest hb]
      exact ih _ post (fun b1 hb1 => hok b1 (List.mem_cons_of_mem b hb1))

/-- Every batch committed by an all-committing run is durably in the store,
and the cursor has passed its watermark. -/
theorem runBatches_committed_durable (bs : List SyncBatch) :
    ∀ st : RunnerState, (∀ b ∈ bs, b.ok = true) →
      ∀ b ∈ bs, (∀ r ∈ b.records,
          r.key ∈ storeKeys (runBatches st bs).store) ∧
        b.watermark ≤ (runBatches st bs).cursor := by
  induction bs with
  | nil => intro st _ b hb; cases hb
  | cons hd tl ih =>
      intro st hok b hb
      have hhd : hd.ok = true := hok hd (List.mem_cons_self hd tl)
      rw [runBatches_commit st hd tl hhd]
      set st1 : RunnerState :=
        ⟨max st.cursor hd.watermark, upsert st.store hd.records⟩ with hst1
      rcases List.mem_cons.mp hb with hbhd | hbtl
      · subst hbhd
        constructor
        · intro r hr
          refine runBatches_keys_mono tl st1 r.key ?_
          have := storeKeys_upsert_toFinset b.records st.store
          have hmem : r.key ∈ (storeKeys (upsert st.store b.records)).toFinset := by
            rw [this]
            refine Finset.mem_union_right _ (List.mem_toFinset.mpr ?_)
            exact List.mem_map.mpr ⟨r, hr, rfl⟩
          exact List.mem_toFinset.mp hmem
        · exact le_trans (le_max_right _ _) (runBatches_cursor_mono tl st1)
      · exact ih st1 (fun b1 hb1 => hok b1 (List.mem_cons_of_mem hd hb1)) b hbtl

/-- C7: the Sync Cursor is monotonically non-decreasing; a batch failure
stops the Runner with the state exactly as committed before it (the cursor
is not advanced past the failed batch); every batch the cursor has passed
has its records durably upserted; and a retry continues from the committed
state exactly as an uninterrupted run would. -/
theorem c7_cursor_monotone_after_upsert :
    (∀ (bs : List SyncBatch) (st : RunnerState),
      st.cursor ≤ (runBatches st bs).cursor) ∧
    (∀ (st : RunnerState) (pre : List SyncBatch) (bad : SyncBatch)
        (post : List SyncBatch), (∀ b ∈ pre, b.ok = true) → bad.ok = false →
      runBatches st (pre ++ bad :: post) = runBatches st pre) ∧
    (∀ (bs : List SyncBatch) (st : RunnerState), (∀ b ∈ bs, b.ok = true) →
      ∀ b ∈ bs, (∀ r ∈ b.records,
          r.key ∈ storeKeys (runBatches st bs).store) ∧
        b.watermark ≤ (runBatches st bs).cursor) ∧
    (∀ (st : RunnerState) (pre post : List SyncBatch),
      (∀ b ∈ pre, b.ok = true) →
      runBatches (runBatches st pre) post = runBatches st (pre ++ post)) := by
  refine ⟨fun bs st => runBatches_cursor_mono bs st, ?_,
    fun bs st h => runBatches_committed_durable bs st h,
    fun st pre post h => (runBatches_append_ok pre st post h).symm⟩
  intro st pre bad post hok hbad
  rw [runBatches_append_ok pre st (bad :: post) hok,
    runBatches_fail _ bad post hbad]

/-- C7 (witness). -/
theorem c7_cursor_monotone_after_upsert_witness :
    runBatches ⟨0, []⟩
        [⟨[⟨⟨"whoop", "sleep", "d1"⟩, "x"⟩], 10, true⟩,
         ⟨[⟨⟨"whoop", "sleep", "d2"⟩, "y"⟩], 12, false⟩] =
      runBatches ⟨0, []⟩ [⟨[⟨⟨"whoop", "sleep", "d1"⟩, "x"⟩], 10, true⟩] ∧
    (0 : Nat) ≤ (runBatches ⟨0, []⟩
      [⟨[⟨⟨"whoop", "sleep", "d1"⟩, "x"⟩], 10, true⟩]).cursor :=
  ⟨c7_cursor_monotone_after_upsert.2.1 ⟨0, []⟩
      [⟨[⟨⟨"whoop", "sleep", "d1"⟩, "x"⟩], 10, true⟩]
      ⟨[⟨⟨"whoop", "sleep", "d2"⟩, "y"⟩], 12, false⟩ [] (by simp) rfl,
   c7_cursor_monotone_after_upsert.1 _ ⟨0, []⟩⟩

/-! ## Dispatcher concurrency guard (C8)

The Dispatcher is part of the backend, which is not under `src/`; it is
modelled from the spec (§4.1). -/

/-- Modelled from the spec: a Job row as the Dispatcher sees it — identity,
sync target and state. -/
structure DispJob where
  id : Nat
  target : String
  state : JobState
deriving DecidableEq, Repr

/-- Modelled from the spec: the Job Registry contents plus the next fresh
Job identity. -/
structure JobRegistry where
  jobs : List DispJob
  nextId : Nat
deriving DecidableEq, Repr

/-- A Job counts as active while `queued` or `running` (§4.1). -/
def isActive (j : DispJob) : Bool :=
  j.state = .queued ∨ j.state = .running

/-- The guard's predicate: an active Job on the given target. -/
def activeOn (t : String) (j : DispJob) : Bool :=
  isActive j && (j.target = t : Bool)

/-- Modelled from the spec: the concurrency-guard lookup — the Registry is
checked for an existing `queued`/`running` Job on the target (§4.1). -/
def findActive (reg : JobRegistry) (t : String) : Option DispJob :=
  reg.jobs.find? (activeOn t)

/-- Modelled from the spec: `RequestSync(target, mode)` (§4.1) — if an
active Job exists on the target its handle is returned, otherwise a fresh
`queued` Job is created and its new handle returned. -/
def requestSync (reg : JobRegistry) (t : String) : JobRegistry × Nat :=
  match findActive reg t with
  | some j => (reg, j.id)
  | none =>
      (⟨reg.jobs ++ [⟨reg.nextId, t, .queued⟩], reg.nextId + 1⟩, reg.nextId)

/-- Number of active Jobs on a target. -/
def countActive (reg : JobRegistry) (t : String) : Nat :=
  (reg.jobs.filter (activeOn t)).length

/-- `find?` over an appended list looks left first. -/
theorem find?_append_of_none {α : Type} (p : α → Bool) (l1 l2 : List α)
    (h : l1.find? p = none) : (l1 ++ l2).find? p = l2.find? p := by
  induction l1 with
  | nil => rfl
  | cons a l ih =>
      rw [List.find?_cons] at h
      cases hp : p a
      · rw [List.cons_append, List.find?_cons, hp]
        exact ih (by rwa [hp] at h; )
      · rw [hp] at h; cases h

/-- C8: back-to-back `RequestSync` calls on the same target return the same
Job ID (the second call never creates a duplicate Job and leaves the
Registry unchanged); a call finding an active Job returns that Job's handle
with the Registry untouched; and the at-most-one-active-Job-per-target
invariant is preserved by every call. -/
theorem c8_at_most_one_active :
    (∀ (reg : JobRegistry) (t : String),
      requestSync (requestSync reg t).1 t =
        ((requestSync reg t).1, (requestSync reg t).2)) ∧
    (∀ (reg : JobRegistry) (t : String) (j : DispJob),
      findActive reg t = some j → requestSync reg t = (reg, j.id)) ∧
    (∀ (reg : JobRegistry) (t : String),
      (∀ t2, countActive reg t2 ≤ 1) →
      ∀ t2, countActive (requestSync reg t).1 t2 ≤ 1) := by
  refine ⟨?_, ?_, ?_⟩
  · intro reg t
    cases hfind : findActive reg t with
    | some j => simp [requestSync, hfind]
    | none =>
        have hnew : findActive
            ⟨reg.jobs ++ [⟨reg.nextId, t, .queued⟩], reg.nextId + 1⟩ t =
            some ⟨reg.nextId, t, .queued⟩ := by
          unfold findActive at hfind ⊢
          rw [find?_append_of_none _ _ _ hfind]
          simp [List.find?_cons, activeOn, isActive]
        simp [requestSync, hfind, hnew]
  · intro reg t j hfind
    simp [requestSync, hfind]
  · intro reg t hinv t2
    cases hfind : findActive reg t with
    | some j => simpa [requestSync, hfind] using hinv t2
    | none =>
        simp only [requestSync, hfind]
        unfold countActive
        rw [List.filter_append]
        by_cases ht : t2 = t
        · subst ht
          have hnil : reg.jobs.filter (activeOn t2) = [] := by
            rw [List.filter_eq_nil_iff]
            intro a ha
            have := List.find?_eq_none.mp hfind a ha
            simpa using this
          rw [hnil]
          simp [activeOn, isActive]
        · have hnil2 : List.filter (activeOn t2) [⟨reg.nextId, t, .queued⟩]
              = [] := by
            simp only [List.filter_cons, List.filter_nil, activeOn]
            have : ((⟨reg.nextId, t, .queued⟩ : DispJob).target = t2 : Bool)
                = false := by
              simp
              exact fun h => ht h.symm
            rw [this, Bool.and_false, if_neg (by simp)]
          rw [hnil2]
          simpa [countActive] using hinv t2

/-- C8 (witness). -/
theorem c8_at_most_one_active_witness :
    requestSync (requestSync ⟨[], 0⟩ "github").1 "github" =
      ((requestSync ⟨[], 0⟩ "github").1, (requestSync ⟨[], 0⟩ "github").2) ∧
    countActive (requestSync ⟨[], 0⟩ "github").1 "github" ≤ 1 :=
  ⟨c8_at_most_one_active.1 ⟨[], 0⟩ "github",
   c8_at_most_one_active.2.2 ⟨[], 0⟩ "github" (fun t2 => by
      simp [countActive]) "github"⟩

/-! ## Project-card time display (C10)

From `createProjectCard` in `dashboard.js` and `getTimeDisplay` in the
dashboard page component:
`timeSpentHours = p.time_spent ? parseFloat(p.time_spent.replace('m','')) / 60 : null;`
`timeDisplay = timeSpentHours ? timeSpentHours.toFixed(1) + 'h' : '—'`.
JS numbers are idealised as exact rationals. -/

/-- JS `s.replace('m', '')` with a string pattern: only the first occurrence
of `'m'` is removed. -/
def replaceFirstM : List Char → List Char
  | [] => []
  | c :: cs => if c = 'm' then cs else c :: replaceFirstM cs

/-- Value of a run of decimal digits. -/
def digitsToNat (ds : List Char) : Nat :=
  ds.foldl (fun n c => 10 * n + (c.toNat - 48)) 0

/-- JS `parseFloat` restricted to the dashboard's minute strings: the
leading digit run is the number; no leading digit gives `NaN` (`none`).
(Signs, fractions and exponents never occur in the API's
`"<digits>m"` format.) -/
def parseFloatNat (s : List Char) : Option Nat :=
  let ds := s.takeWhile Char.isDigit
  if ds.isEmpty then none else some (digitsToNat ds)

/-- The minutes parsed from a `time_spent` string:
`parseFloat(s.replace('m', ''))`. -/
def parsedMinutes (s : String) : Option Nat :=
  parseFloatNat (replaceFirstM s.data)

/-- `p.time_spent ? parseFloat(p.time_spent.replace('m','')) / 60 : null` —
an absent field and the falsy empty string give `null`; a `NaN` parse
propagates (`NaN / 60` is `NaN`, modelled `none` like `null` since both are
falsy to the display test below). -/
def timeSpentHours (time_spent : Option String) : Option ℚ :=
  match time_spent with
  | none => none
  | some s =>
      if s = "" then none
      else (parsedMinutes s).map (fun v => (v : ℚ) / 60)

/-- JS `Number.prototype.toFixed(1)`: nearest multiple of one tenth, ties
rounded up (idealised over exact rationals, for nonnegative inputs). -/
def toFixed1 (q : ℚ) : String :=
  let n : Int := Int.floor (q * 10 + 1 / 2)
  toString (n / 10) ++ "." ++ toString (n % 10)

/-- `getTimeDisplay` from the dashboard page component (also inlined in
`createProjectCard`): a truthy hour value is rendered `toFixed(1) + 'h'`,
anything falsy (`null`, `0`, `NaN`) renders the em dash. -/
def getTimeDisplay (time_spent : Option String) : String :=
  match timeSpentHours time_spent with
  | none => "—"
  | some h => if h = 0 then "—" else toFixed1 h ++ "h"

/-- C10: a `time_spent` of `"0m"` parses to zero minutes and renders the em
dash exactly as an absent field does (never `"0.0h"`); a non-zero parsed
value `v` renders as `v / 60` hours rounded to one decimal followed by
`'h'`. -/
theorem c10_zero_minutes_dash :
    getTimeDisplay (some "0m") = "—" ∧
    getTimeDisplay none = "—" ∧
    getTimeDisplay (some "0m") = getTimeDisplay none ∧
    (∀ (s : String) (v : Nat), s ≠ "" → parsedMinutes s = some v → v ≠ 0 →
      getTimeDisplay (some s) = toFixed1 ((v : ℚ) / 60) ++ "h") := by
  have h1 : parsedMinutes "0m" = some 0 := by decide
  have h2 : timeSpentHours (some "0m") = some 0 := by
    simp [timeSpentHours, h1]
  have hdash : getTimeDisplay (some "0m") = "—" := by
    simp [getTimeDisplay, h2]
  refine ⟨hdash, rfl, by rw [hdash]; rfl, ?_⟩
  intro s v hs hv hv0
  have hhours : timeSpentHours (some s) = some ((v : ℚ) / 60) := by
    simp [timeSpentHours, hs, hv]
  have hne : ((v : ℚ) / 60) ≠ 0 := by
    refine div_ne_zero ?_ (by norm_num)
    exact_mod_cast hv0
  simp [getTimeDisplay, hhours, hne]

/-- C10 (witness). -/
theorem c10_zero_minutes_dash_witness :
    getTimeDisplay (some "90m") = toFixed1 ((90 : ℚ) / 60) ++ "h" :=
  c10_zero_minutes_dash.2.2.2 "90m" 90 (by decide) (by decide) (by decide)
